import Mathlib

/-!
Verification of the bounded response synthesis layer of two MCP servers:
the Databricks server (`src/databricks/server/src/main.py`) and the Notion
server (`src/notion/server/src/main.py`).

Modelling conventions, used throughout:

* A Python `str` is modelled as `List Char` (Python strings are sequences of
  characters; `len`, slicing, `split`, `join`, `in` become `List.length`,
  `take`/`drop`, `List.splitOn`, `List.intercalate`, `List.IsInfix`).
* A Python result `dict` is modelled as a structure; keys that the code adds
  only conditionally become `Option`/`Bool` fields (`none`/`false` = absent).
* Upstream services (the Databricks workspace client, the Notion HTTP API)
  are modelled as explicit function parameters; an HTTP/SDK exception is an
  `Except`-style error value, and a tool that may write upstream returns the
  written payload as an `Option` (`none` = no upstream write happened).
-/

namespace Databricks

/-! ### Size limits (main.py lines 39-42) -/

def MAX_TEXT_SIZE : Nat := 100000
def MAX_CELL_CONTENT : Nat := 50000
def MAX_LIST_ITEMS : Nat := 100
def MAX_LOG_SIZE : Nat := 80000

/-! ### `truncate_text` (main.py lines 45-67) -/

/-- A value stored in a truncation-metadata dict: Python `True` or an `int`. -/
inductive MetaVal where
  | bool (b : Bool)
  | nat (n : Nat)
deriving DecidableEq

/-- Blocks of three, taken from the front, used (over a reversed digit list)
for Python's `f"{n:,}"` thousands-separator formatting. -/
def chunk3 : List Char → List (List Char)
  | [] => []
  | [a] => [[a]]
  | [a, b] => [[a, b]]
  | a :: b :: c :: rest => [a, b, c] :: chunk3 rest

/-- Python `f"{n:,}"`: decimal digits of `n` with `,` every three digits,
counted from the right. -/
def fmtComma (n : Nat) : List Char :=
  (List.intercalate [','] (chunk3 (Nat.toDigits 10 n).reverse)).reverse

/-- The suffix appended by `truncate_text` (main.py line 66):
`f"\n\n[... truncated, showing {max_size:,} of {len(text):,} chars]"`. -/
def truncSuffix (max_size total : Nat) : List Char :=
  ("\n\n[... truncated, showing ".toList) ++ fmtComma max_size ++
    (" of ".toList) ++ fmtComma total ++ (" chars]".toList)

/-- `truncate_text` (main.py lines 45-67).  Returns the (possibly truncated)
text together with the metadata dict, which is empty when no truncation
occurred.  `if not text or len(text) <= max_size: return text, {}`. -/
def truncate_text (text : List Char) (max_size : Nat) (field_name : List Char) :
    List Char × List ((List Char) × MetaVal) :=
  if text = [] ∨ text.length ≤ max_size then
    (text, [])
  else
    (text.take max_size ++ truncSuffix max_size text.length,
      [(field_name ++ ("_truncated".toList), MetaVal.bool true),
       (field_name ++ ("_total_size".toList), MetaVal.nat text.length),
       (field_name ++ ("_shown_size".toList), MetaVal.nat max_size)])

/-- **C1**: for every text and positive budget `b`,
`truncate_text text b name = (out, meta)` satisfies:
`out.length ≤ b +` the length of the appended suffix; `meta` is non-empty iff
`text.length > b`, in which case it reports `truncated = true`,
`total_size = text.length` and `shown_size = b` under keys prefixed by `name`;
and whenever `text.length ≤ b` (which covers empty `text`) the input is
returned unchanged with an empty metadata dict. -/
theorem truncate_text_spec (text : List Char) (b : Nat) (name : List Char)
    (hb : 0 < b) :
    (truncate_text text b name).1.length ≤ b + (truncSuffix b text.length).length ∧
    ((truncate_text text b name).2 ≠ [] ↔ text.length > b) ∧
    (truncate_text text b name).2 =
      (if text.length > b then
        [(name ++ ("_truncated".toList), MetaVal.bool true),
         (name ++ ("_total_size".toList), MetaVal.nat text.length),
         (name ++ ("_shown_size".toList), MetaVal.nat b)]
      else []) ∧
    (text.length ≤ b → truncate_text text b name = (text, [])) := by
  by_cases h : text = [] ∨ text.length ≤ b
  · have hle : text.length ≤ b := by
      rcases h with h | h
      · simp [h]
      · exact h
    have hnot : ¬ text.length > b := not_lt.mpr hle
    refine ⟨?_, ?_, ?_, ?_⟩
    · simp only [truncate_text, if_pos h]
      exact le_add_right (le_trans hle (le_refl b))
    · simp [truncate_text, if_pos h, hnot]
    · simp [truncate_text, if_pos h, hnot]
    · intro _
      simp [truncate_text, if_pos h]
  · push_neg at h
    obtain ⟨hne, hgt⟩ := h
    have hgt' : text.length > b := hgt
    have hcond : ¬ (text = [] ∨ text.length ≤ b) := by
      push_neg
      exact ⟨hne, hgt⟩
    refine ⟨?_, ?_, ?_, ?_⟩
    · simp only [truncate_text, if_neg hcond, List.length_append, List.length_take]
      have : min b text.length = b := min_eq_left (le_of_lt hgt)
      omega
    · simp [truncate_text, if_neg hcond, hgt']
    · simp [truncate_text, if_neg hcond, hgt']
    · intro hle
      exact absurd hle (not_le.mpr hgt)

/-- Witness for `truncate_text_spec` at `text = "abcdef"`, `b = 3`. -/
theorem truncate_text_spec_witness :
    ((truncate_text ("abcdef".toList) 3 ("content".toList)).2 ≠ [] ↔
      ("abcdef".toList).length > 3) :=
  (truncate_text_spec ("abcdef".toList) 3 ("content".toList) (by decide)).2.1

/-! ### Notebook cell model (main.py lines 937-969)

`CELL_SEPARATOR = "# COMMAND ----------"`; `_parse_notebook_cells` walks the
lines of the content, starting a new cell at every line whose `strip()`
starts with the separator; `_reconstruct_notebook` joins the cells with
`f"\n\n{CELL_SEPARATOR}\n\n"`. -/

def CELL_SEPARATOR : List Char := "# COMMAND ----------".toList

/-- Python whitespace as stripped by `str.strip()` (the characters relevant
to the separator grammar are ASCII; other Unicode whitespace never borders a
separator token). -/
def isPySpace (c : Char) : Bool :=
  c == ' ' || c == '\t' || c == '\n' || c == '\r' || c == '\x0b' || c == '\x0c'

/-- Python `str.strip()`: drop whitespace from both ends. -/
def pyStrip (l : List Char) : List Char :=
  ((l.dropWhile isPySpace).reverse.dropWhile isPySpace).reverse

/-- `line.strip().startswith("# COMMAND ----------")` (main.py line 947). -/
def lineIsSep (line : List Char) : Bool :=
  CELL_SEPARATOR.isPrefixOf (pyStrip line)

/-- The loop of `_parse_notebook_cells` (main.py lines 943-956): first
argument is the remaining lines, second is the accumulated `current_cell`
list of lines. -/
def parseCellsGo : List (List Char) → List (List Char) → List (List Char)
  | [], current => if current = [] then [] else [List.intercalate ['\n'] current]
  | line :: rest, current =>
    if lineIsSep line then
      if current = [] then parseCellsGo rest []
      else List.intercalate ['\n'] current :: parseCellsGo rest []
    else parseCellsGo rest (current ++ [line])

/-- `_parse_notebook_cells` (main.py lines 941-957). -/
def _parse_notebook_cells (content : List Char) : List (List Char) :=
  parseCellsGo (content.splitOn '\n') []

/-- `f"\n\n{CELL_SEPARATOR}\n\n"`, the joiner of `_reconstruct_notebook`. -/
def CELL_SEPARATOR_BLOCK : List Char := '\n' :: '\n' :: (CELL_SEPARATOR ++ ['\n', '\n'])

/-- `_reconstruct_notebook` (main.py lines 960-962). -/
def _reconstruct_notebook (cells : List (List Char)) : List Char :=
  List.intercalate CELL_SEPARATOR_BLOCK cells

/-- "separator-free": the content does not contain the cell-separator token
as a substring (Python `CELL_SEPARATOR in s` is substring containment). -/
def SepFree (s : List Char) : Prop := ¬ CELL_SEPARATOR <:+: s

instance (s : List Char) : Decidable (SepFree s) := by
  unfold SepFree
  infer_instance

/-! #### Helper lemmas about `splitOn`, `intercalate` and `parseCellsGo` -/

theorem modifyHead_append_left {α : Type} (f : α → α) (L M : List α) (h : L ≠ []) :
    (L ++ M).modifyHead f = L.modifyHead f ++ M := by
  cases L with
  | nil => exact absurd rfl h
  | cons a L => simp

theorem splitOn_cons_self {α : Type} [DecidableEq α] (c : α) (y : List α) :
    (c :: y).splitOn c = [] :: y.splitOn c := by
  simp [List.splitOn, List.splitOnP_cons]

theorem splitOn_append_cons {α : Type} [DecidableEq α] (c : α) (x y : List α) :
    (x ++ c :: y).splitOn c = x.splitOn c ++ y.splitOn c := by
  induction x with
  | nil => simp [splitOn_cons_self]
  | cons a x ih =>
    by_cases h : a = c
    · subst h
      rw [List.cons_append, splitOn_cons_self, splitOn_cons_self, ih, List.cons_append]
    · simp only [List.splitOn, List.splitOnP_cons] at ih ⊢
      have hbeq : (a == c) = false := beq_eq_false_iff_ne.mpr h
      rw [List.cons_append]
      simp only [List.splitOnP_cons, hbeq, Bool.false_eq_true, if_false, ih]
      exact modifyHead_append_left _ _ _ (List.splitOnP_ne_nil _ x)

theorem intercalate_cons2 {α : Type} (x a : List α) (l : List (List α)) (h : l ≠ []) :
    List.intercalate x (a :: l) = a ++ x ++ List.intercalate x l := by
  cases l with
  | nil => exact absurd rfl h
  | cons b t => simp [List.intercalate, List.intersperse_cons₂, List.append_assoc]

theorem intercalate_append_last {α : Type} (x y : List α) (L : List (List α)) (h : L ≠ []) :
    List.intercalate x (L ++ [y]) = List.intercalate x L ++ x ++ y := by
  induction L with
  | nil => exact absurd rfl h
  | cons a L ih =>
    cases L with
    | nil => simp [List.intercalate, List.intersperse_cons₂, List.append_assoc]
    | cons b t =>
      rw [List.cons_append, intercalate_cons2 _ _ _ (by simp),
        intercalate_cons2 _ _ _ (by simp), ih (by simp)]
      simp [List.append_assoc]

theorem infix_of_mem_intercalate {α : Type} {l : List α} {L : List (List α)}
    (x : List α) (h : l ∈ L) : l <:+: List.intercalate x L := by
  induction L with
  | nil => cases h
  | cons a t ih =>
    rcases List.mem_cons.mp h with rfl | h'
    · cases t with
      | nil => simp [List.intercalate]
      | cons b u =>
        rw [intercalate_cons2 _ _ _ (by simp), List.append_assoc]
        exact (List.prefix_append l _).isInfix
    · have ht : t ≠ [] := by
        intro hne
        subst hne
        cases h'
      rw [intercalate_cons2 _ _ _ ht]
      exact (ih h').trans (List.suffix_append _ _).isInfix

theorem infix_of_mem_splitOn {α : Type} [DecidableEq α] {l s : List α} (c : α)
    (h : l ∈ s.splitOn c) : l <:+: s := by
  have hs : [c].intercalate (s.splitOn c) = s := List.intercalate_splitOn s c
  calc l <:+: [c].intercalate (s.splitOn c) := infix_of_mem_intercalate [c] h
    _ = s := hs

theorem pyStrip_infix_self (l : List Char) : pyStrip l <:+: l := by
  have h1 : l.dropWhile isPySpace <:+ l := List.dropWhile_suffix _
  have h2 : (l.dropWhile isPySpace).reverse.dropWhile isPySpace <:+
      (l.dropWhile isPySpace).reverse := List.dropWhile_suffix _
  have h3 : ((l.dropWhile isPySpace).reverse.dropWhile isPySpace).reverse <+:
      l.dropWhile isPySpace := by
    rw [← List.reverse_suffix]
    simpa using h2
  exact (h3.isInfix.trans h1.isInfix)

theorem lineIsSep_false_of_sepFree {s line : List Char} (hs : SepFree s)
    (hmem : line ∈ s.splitOn '\n') : lineIsSep line = false := by
  by_contra h
  rw [Bool.not_eq_false] at h
  unfold lineIsSep at h
  have hpre : CELL_SEPARATOR <+: pyStrip line := List.isPrefixOf_iff_prefix.mp h
  exact hs ((hpre.isInfix.trans (pyStrip_infix_self line)).trans (infix_of_mem_splitOn '\n' hmem))

theorem parseCellsGo_nil (current : List (List Char)) :
    parseCellsGo [] current =
      if current = [] then [] else [List.intercalate ['\n'] current] := rfl

theorem parseCellsGo_cons_sep (line : List Char) (rest current : List (List Char))
    (h : lineIsSep line = true) (hc : current ≠ []) :
    parseCellsGo (line :: rest) current =
      List.intercalate ['\n'] current :: parseCellsGo rest [] := by
  simp only [parseCellsGo, h, if_true]
  rw [if_neg hc]

theorem parseCellsGo_cons_nonsep (line : List Char) (rest current : List (List Char))
    (h : lineIsSep line = false) :
    parseCellsGo (line :: rest) current = parseCellsGo rest (current ++ [line]) := by
  simp only [parseCellsGo, h, Bool.false_eq_true, if_false]

theorem parseCellsGo_append_nonsep (ls rest current : List (List Char))
    (h : ∀ l ∈ ls, lineIsSep l = false) :
    parseCellsGo (ls ++ rest) current = parseCellsGo rest (current ++ ls) := by
  induction ls generalizing current with
  | nil => simp
  | cons a t ih =>
    have ha : lineIsSep a = false := h a (by simp)
    rw [List.cons_append]
    simp only [parseCellsGo, ha, Bool.false_eq_true, if_false]
    rw [ih (current ++ [a]) (fun l hl => h l (by simp [hl]))]
    simp [List.append_assoc]

theorem parse_sepfree (s : List Char) (h : SepFree s) :
    _parse_notebook_cells s = [s] := by
  unfold _parse_notebook_cells
  have hlines : ∀ l ∈ s.splitOn '\n', lineIsSep l = false :=
    fun l hl => lineIsSep_false_of_sepFree h hl
  have hgo := parseCellsGo_append_nonsep (s.splitOn '\n') [] [] hlines
  rw [List.append_nil] at hgo
  rw [hgo, List.nil_append]
  have hne : s.splitOn '\n' ≠ [] := by
    simp only [List.splitOn]
    exact List.splitOnP_ne_nil _ s
  rw [parseCellsGo_nil, if_neg hne, List.intercalate_splitOn s '\n']

/-! #### C3: the round trip `parse ∘ reconstruct` -/

/-- Shape of `_parse_notebook_cells (_reconstruct_notebook S)` for the
segments after the first one: the blank lines that `_reconstruct_notebook`
places around each separator are folded into the neighbouring cells by the
parser, so every non-first segment comes back with a leading `'\n'` and every
non-last segment with a trailing `'\n'`. -/
def padTail : List (List Char) → List (List Char)
  | [] => []
  | [s] => ['\n' :: s]
  | s :: rest => ('\n' :: (s ++ ['\n'])) :: padTail rest

/-- Full shape of the round trip: a one-segment list survives unchanged, the
empty list parses back as one empty segment, and longer lists pick up
boundary newlines at every separator. -/
def roundTripCells : List (List Char) → List (List Char)
  | [] => [[]]
  | [s] => [s]
  | s :: rest => (s ++ ['\n']) :: padTail rest

theorem lines_reconstruct_cons (s : List Char) (r : List (List Char)) (hr : r ≠ []) :
    (_reconstruct_notebook (s :: r)).splitOn '\n' =
      s.splitOn '\n' ++ [] :: CELL_SEPARATOR :: [] ::
        (_reconstruct_notebook r).splitOn '\n' := by
  unfold _reconstruct_notebook
  rw [intercalate_cons2 _ _ _ hr]
  have hshape : s ++ CELL_SEPARATOR_BLOCK ++ List.intercalate CELL_SEPARATOR_BLOCK r
      = s ++ '\n' :: ('\n' :: (CELL_SEPARATOR ++ '\n' ::
          ('\n' :: List.intercalate CELL_SEPARATOR_BLOCK r))) := by
    simp [CELL_SEPARATOR_BLOCK, List.append_assoc]
  rw [hshape, splitOn_append_cons, splitOn_cons_self]
  have hsep1 : (CELL_SEPARATOR ++ '\n' ::
      ('\n' :: List.intercalate CELL_SEPARATOR_BLOCK r)).splitOn '\n' =
      CELL_SEPARATOR :: ('\n' :: List.intercalate CELL_SEPARATOR_BLOCK r).splitOn '\n' := by
    simp only [List.splitOn]
    exact List.splitOnP_first _ CELL_SEPARATOR (by decide) '\n' (by simp) _
  rw [hsep1, splitOn_cons_self]

theorem parse_reconstruct_tail (S : List (List Char)) (hS : S ≠ [])
    (h : ∀ s ∈ S, SepFree s) :
    parseCellsGo ([] :: (_reconstruct_notebook S).splitOn '\n') [] = padTail S := by
  induction S with
  | nil => exact absurd rfl hS
  | cons s r ih =>
    cases r with
    | nil =>
      have hrec : _reconstruct_notebook [s] = s := by
        simp [_reconstruct_notebook, List.intercalate]
      rw [hrec]
      have hcons : ∀ l ∈ ([] :: s.splitOn '\n' : List (List Char)),
          lineIsSep l = false := by
        intro l hl
        rcases List.mem_cons.mp hl with rfl | hl'
        · decide
        · exact lineIsSep_false_of_sepFree (h s (by simp)) hl'
      have hgo := parseCellsGo_append_nonsep ([] :: s.splitOn '\n') [] [] hcons
      rw [List.append_nil] at hgo
      rw [hgo, List.nil_append]
      have hne : s.splitOn '\n' ≠ [] := by
        simp only [List.splitOn]
        exact List.splitOnP_ne_nil _ s
      rw [parseCellsGo_nil, if_neg (by simp : ¬ (([] : List Char) ::
          s.splitOn '\n' = [])),
        intercalate_cons2 ['\n'] [] (s.splitOn '\n') hne,
        List.intercalate_splitOn s '\n']
      simp [padTail]
    | cons b t =>
      rw [lines_reconstruct_cons s (b :: t) (by simp)]
      have hgroup : ([] : List Char) :: (s.splitOn '\n' ++ [] :: CELL_SEPARATOR :: [] ::
          (_reconstruct_notebook (b :: t)).splitOn '\n')
          = (([] :: s.splitOn '\n') ++ [[]]) ++ (CELL_SEPARATOR :: [] ::
            (_reconstruct_notebook (b :: t)).splitOn '\n') := by
        simp
      rw [hgroup]
      have hns : ∀ l ∈ (([] :: s.splitOn '\n') ++ [[]] : List (List Char)),
          lineIsSep l = false := by
        intro l hl
        rcases List.mem_append.mp hl with hl' | hl'
        · rcases List.mem_cons.mp hl' with rfl | hl''
          · decide
          · exact lineIsSep_false_of_sepFree (h s (by simp)) hl''
        · rcases List.mem_singleton.mp hl' with rfl
          decide
      rw [parseCellsGo_append_nonsep _ _ [] hns, List.nil_append]
      have hsepline : lineIsSep CELL_SEPARATOR = true := by decide
      have hcurne : ([] :: s.splitOn '\n') ++ [[]] ≠ ([] : List (List Char)) := by simp
      rw [parseCellsGo_cons_sep CELL_SEPARATOR _ _ hsepline hcurne]
      have hne : s.splitOn '\n' ≠ [] := by
        simp only [List.splitOn]
        exact List.splitOnP_ne_nil _ s
      have hcell : List.intercalate ['\n'] (([] :: s.splitOn '\n') ++ [[]])
          = '\n' :: (s ++ ['\n']) := by
        rw [intercalate_append_last ['\n'] [] ([] :: s.splitOn '\n') (by simp),
          intercalate_cons2 ['\n'] [] (s.splitOn '\n') hne,
          List.intercalate_splitOn s '\n']
        simp
      rw [hcell, ih (by simp) (fun x hx => h x (by simp [hx]))]
      rfl

/-- **C3 (amended)**: for every separator-free segment list `S`,
`_parse_notebook_cells (_reconstruct_notebook S)` equals `roundTripCells S`:
the identity for lists of at most one segment, whereas for two or more
segments every separator boundary folds an extra `'\n'` into the adjacent
cells, and the empty list comes back as one empty cell. -/
theorem parse_reconstruct_roundtrip (S : List (List Char))
    (h : ∀ s ∈ S, SepFree s) :
    _parse_notebook_cells (_reconstruct_notebook S) = roundTripCells S := by
  cases S with
  | nil => decide
  | cons s r =>
    cases r with
    | nil =>
      have hrec : _reconstruct_notebook [s] = s := by
        simp [_reconstruct_notebook, List.intercalate]
      rw [hrec]
      exact parse_sepfree s (h s (by simp))
    | cons b t =>
      unfold _parse_notebook_cells
      rw [lines_reconstruct_cons s (b :: t) (by simp)]
      have hgroup : s.splitOn '\n' ++ [] :: CELL_SEPARATOR :: [] ::
          (_reconstruct_notebook (b :: t)).splitOn '\n'
          = (s.splitOn '\n' ++ [[]]) ++ (CELL_SEPARATOR :: [] ::
            (_reconstruct_notebook (b :: t)).splitOn '\n') := by
        simp
      rw [hgroup]
      have hns : ∀ l ∈ (s.splitOn '\n' ++ [[]] : List (List Char)),
          lineIsSep l = false := by
        intro l hl
        rcases List.mem_append.mp hl with hl' | hl'
        · exact lineIsSep_false_of_sepFree (h s (by simp)) hl'
        · rcases List.mem_singleton.mp hl' with rfl
          decide
      rw [parseCellsGo_append_nonsep _ _ [] hns, List.nil_append]
      have hsepline : lineIsSep CELL_SEPARATOR = true := by decide
      have hne : s.splitOn '\n' ≠ [] := by
        simp only [List.splitOn]
        exact List.splitOnP_ne_nil _ s
      have hcurne : s.splitOn '\n' ++ [[]] ≠ ([] : List (List Char)) := by simp
      rw [parseCellsGo_cons_sep CELL_SEPARATOR _ _ hsepline hcurne]
      have hcell : List.intercalate ['\n'] (s.splitOn '\n' ++ [[]])
          = s ++ ['\n'] := by
        rw [intercalate_append_last ['\n'] [] (s.splitOn '\n') hne,
          List.intercalate_splitOn s '\n']
        simp
      rw [hcell, parse_reconstruct_tail (b :: t) (by simp)
        (fun x hx => h x (by simp [hx]))]
      rfl

/-- **C3 (counterexample)**: the claimed law `parse (reconstruct S) = S`
already fails on the separator-free two-segment list `["a", "b"]`: the round
trip returns `["a\n", "\nb"]`. -/
theorem parse_reconstruct_not_identity :
    _parse_notebook_cells (_reconstruct_notebook [("a".toList), ("b".toList)]) ≠
      [("a".toList), ("b".toList)] := by
  decide

/-- Witness for `parse_reconstruct_roundtrip` on the concrete separator-free
list `["a", "b"]`. -/
theorem parse_reconstruct_roundtrip_witness :
    _parse_notebook_cells (_reconstruct_notebook [("a".toList), ("b".toList)]) =
      roundTripCells [("a".toList), ("b".toList)] :=
  parse_reconstruct_roundtrip [("a".toList), ("b".toList)] (by decide)

/-- **C7**: the document `"a\n# COMMAND ----------\nb\n# COMMAND ----------\nc"`
parses to exactly the segments `["a", "b", "c"]`, and replacing the segment
at index 1 with `"B"` and reconstructing yields exactly
`"a\n\n# COMMAND ----------\n\nB\n\n# COMMAND ----------\n\nc"`. -/
theorem scenario_parse_update_reconstruct :
    _parse_notebook_cells (("a\n# COMMAND ----------\nb\n# COMMAND ----------\nc").toList) =
      [("a".toList), ("b".toList), ("c".toList)] ∧
    _reconstruct_notebook
        (([("a".toList), ("b".toList), ("c".toList)]).set 1 ("B".toList)) =
      ("a\n\n# COMMAND ----------\n\nB\n\n# COMMAND ----------\n\nc").toList := by
  constructor
  · decide
  · decide

/-! ### `update_notebook_cell` (main.py lines 965-1060) -/

/-- One entry of the `updates` array: `{"index": ..., "content": ...}`.
Python integers may be negative, hence `Int`. -/
structure CellUpdate where
  index : Int
  content : List Char
deriving DecidableEq

/-- The arguments of `databricks_update_notebook_cell` that the function
reads with `args.get(...)`; an absent key is `none`. -/
structure UpdateArgs where
  cell_index : Option Int
  new_content : Option (List Char)
  updates : Option (List CellUpdate)
deriving DecidableEq

/-- The separator test of `_validate_cell_content` (main.py line 967):
`"# COMMAND ----------" in content or ("# COMMAND" in content and
"----------" in content)`; Python `in` on strings is substring containment. -/
def containsSeparator (content : List Char) : Prop :=
  CELL_SEPARATOR <:+: content ∨
    ((("# COMMAND").toList) <:+: content ∧ (("----------").toList) <:+: content)

instance (content : List Char) : Decidable (containsSeparator content) := by
  unfold containsSeparator
  infer_instance

/-- `_validate_cell_content` (main.py lines 965-969): `True` when the content
is allowed.  (The accompanying error string carries no data beyond the fact
of the violation.) -/
def _validate_cell_content (content : List Char) : Bool :=
  !(decide (containsSeparator content))

/-- The error results `update_notebook_cell` returns before any upstream
write.  Each constructor keeps the data the corresponding Python f-string
message interpolates (the offending index; the cell count, from which the
message derives the valid range `0` to `len(cells)-1`). -/
inductive UpdateError where
  | bothModes
  | neitherMode
  | missingNewContent
  | indexOutOfBounds (index : Int) (total_cells : Nat)
  | invalidContent (index : Int)
deriving DecidableEq

inductive UpdateResult where
  | error (e : UpdateError)
  | success (updated_cells : List Int) (total_cells : Nat)
deriving DecidableEq

/-- The `updates_to_apply` list built at main.py lines 1009-1013. -/
def updatesToApply (args : UpdateArgs) : List CellUpdate :=
  if args.cell_index.isSome then
    [{ index := args.cell_index.getD 0, content := args.new_content.getD [] }]
  else args.updates.getD []

/-- The validation loop (main.py lines 1016-1033): for each update in order,
first the bounds check `idx < 0 or idx >= len(cells)`, then the separator
check; the first failure aborts the whole call. -/
def validateUpdates (cells_len : Nat) : List CellUpdate → Option UpdateError
  | [] => none
  | u :: rest =>
    if u.index < 0 ∨ (cells_len : Int) ≤ u.index then
      some (UpdateError.indexOutOfBounds u.index cells_len)
    else if _validate_cell_content u.content = false then
      some (UpdateError.invalidContent u.index)
    else validateUpdates cells_len rest

/-- The application loop (main.py lines 1036-1040): `cells[idx] = content`,
sequentially.  Validation has ensured `0 <= idx < len(cells)`. -/
def applyUpdates (cells : List (List Char)) : List CellUpdate → List (List Char)
  | [] => cells
  | u :: rest => applyUpdates (cells.set u.index.toNat u.content) rest

/-- `update_notebook_cell` (main.py lines 972-1060), as a function of the
upstream notebook source (the decoded result of `workspace.export`) and the
call arguments.  The second component models the effect on the upstream
notebook: `some c` exactly when `workspace.import_` is invoked with content
`c`, `none` when no upstream write is performed. -/
def update_notebook_cell (content : List Char) (args : UpdateArgs) :
    UpdateResult × Option (List Char) :=
  if args.cell_index.isSome && args.updates.isSome then
    (UpdateResult.error UpdateError.bothModes, none)
  else if !args.cell_index.isSome && !args.updates.isSome then
    (UpdateResult.error UpdateError.neitherMode, none)
  else if args.cell_index.isSome && args.new_content.isNone then
    (UpdateResult.error UpdateError.missingNewContent, none)
  else
    let cells := _parse_notebook_cells content
    match validateUpdates cells.length (updatesToApply args) with
    | some e => (UpdateResult.error e, none)
    | none =>
      let new_cells := applyUpdates cells (updatesToApply args)
      (UpdateResult.success ((updatesToApply args).map (fun u => u.index)) new_cells.length,
        some (_reconstruct_notebook new_cells))

/-- An update that validation must reject, against a notebook of `n` cells:
index outside `[0, n)`, or content containing the separator (exact or
split-token match). -/
def BadUpdate (n : Nat) (u : CellUpdate) : Prop :=
  u.index < 0 ∨ (n : Int) ≤ u.index ∨ containsSeparator u.content

/-- The returned error names an offending update of the batch, together with
the cell count that determines the valid range. -/
def ErrorDescribes (e : UpdateError) (n : Nat) (us : List CellUpdate) : Prop :=
  (∃ u ∈ us, (u.index < 0 ∨ (n : Int) ≤ u.index) ∧
    e = UpdateError.indexOutOfBounds u.index n) ∨
  (∃ u ∈ us, containsSeparator u.content ∧ e = UpdateError.invalidContent u.index)

/-- Exactly one input mode, with `new_content` present in single mode. -/
def ModesOK (args : UpdateArgs) : Prop :=
  (args.cell_index.isSome = true ∧ args.updates = none ∧
    args.new_content.isSome = true) ∨
  (args.cell_index = none ∧ args.updates.isSome = true)

theorem validateUpdates_eq_none_iff (n : Nat) (us : List CellUpdate) :
    validateUpdates n us = none ↔ ∀ u ∈ us, ¬ BadUpdate n u := by
  induction us with
  | nil => simp [validateUpdates]
  | cons u rest ih =>
    by_cases hb : u.index < 0 ∨ (n : Int) ≤ u.index
    · simp only [validateUpdates, if_pos hb]
      constructor
      · intro h
        cases h
      · intro h
        have hbad : BadUpdate n u := by
          rcases hb with h' | h'
          · exact Or.inl h'
          · exact Or.inr (Or.inl h')
        exact absurd hbad (h u (by simp))
    · by_cases hc : containsSeparator u.content
      · have hv : _validate_cell_content u.content = false := by
          simp [_validate_cell_content, hc]
        have hstep : validateUpdates n (u :: rest) =
            some (UpdateError.invalidContent u.index) := by
          simp [validateUpdates, if_neg hb, hv]
        rw [hstep]
        constructor
        · intro h
          cases h
        · intro h
          exact absurd (show BadUpdate n u from Or.inr (Or.inr hc))
            (h u (by simp))
      · have hv : ¬ _validate_cell_content u.content = false := by
          simp [_validate_cell_content, hc]
        have hnotbad : ¬ BadUpdate n u := by
          simp only [BadUpdate]
          push_neg
          push_neg at hb
          exact ⟨hb.1, hb.2, hc⟩
        simp only [validateUpdates, if_neg hb, if_neg hv, ih]
        constructor
        · intro h u' hu'
          rcases List.mem_cons.mp hu' with rfl | hu''
          · exact hnotbad
          · exact h u' hu''
        · intro h u' hu'
          exact h u' (by simp [hu'])

theorem validateUpdates_some_of_bad (n : Nat) (us : List CellUpdate)
    (h : ∃ u ∈ us, BadUpdate n u) :
    ∃ e, validateUpdates n us = some e ∧ ErrorDescribes e n us := by
  induction us with
  | nil => obtain ⟨u, hu, _⟩ := h; cases hu
  | cons u rest ih =>
    by_cases hb : u.index < 0 ∨ (n : Int) ≤ u.index
    · refine ⟨UpdateError.indexOutOfBounds u.index n, ?_, ?_⟩
      · simp only [validateUpdates, if_pos hb]
      · exact Or.inl ⟨u, by simp, hb, rfl⟩
    · by_cases hc : containsSeparator u.content
      · have hv : _validate_cell_content u.content = false := by
          simp [_validate_cell_content, hc]
        refine ⟨UpdateError.invalidContent u.index, ?_, ?_⟩
        · simp [validateUpdates, if_neg hb, hv]
        · exact Or.inr ⟨u, by simp, hc, rfl⟩
      · have hv : ¬ _validate_cell_content u.content = false := by
          simp [_validate_cell_content, hc]
        have hrest : ∃ u' ∈ rest, BadUpdate n u' := by
          obtain ⟨u', hu', hbad⟩ := h
          rcases List.mem_cons.mp hu' with rfl | hu''
          · rcases hbad with h' | h' | h'
            · exact absurd (Or.inl h') hb
            · exact absurd (Or.inr h') hb
            · exact absurd h' hc
          · exact ⟨u', hu'', hbad⟩
        obtain ⟨e, he, hdesc⟩ := ih hrest
        refine ⟨e, ?_, ?_⟩
        · simp only [validateUpdates, if_neg hb, if_neg hv, he]
        · rcases hdesc with ⟨u', hu', hp⟩ | ⟨u', hu', hp⟩
          · exact Or.inl ⟨u', by simp [hu'], hp⟩
          · exact Or.inr ⟨u', by simp [hu'], hp⟩

theorem update_notebook_cell_validBranch (content : List Char) (args : UpdateArgs)
    (hc1 : (args.cell_index.isSome && args.updates.isSome) = false)
    (hc2 : (!args.cell_index.isSome && !args.updates.isSome) = false)
    (hc3 : (args.cell_index.isSome && args.new_content.isNone) = false) :
    update_notebook_cell content args =
      match validateUpdates (_parse_notebook_cells content).length
          (updatesToApply args) with
      | some e => (UpdateResult.error e, none)
      | none =>
        (UpdateResult.success ((updatesToApply args).map (fun u => u.index))
          (applyUpdates (_parse_notebook_cells content) (updatesToApply args)).length,
          some (_reconstruct_notebook
            (applyUpdates (_parse_notebook_cells content) (updatesToApply args)))) := by
  simp only [update_notebook_cell, hc1, hc2, hc3, Bool.false_eq_true, if_false]

/-- **C2**: malformed calls — both modes supplied, neither supplied, single
mode without `new_content`, an update index outside `[0, cell count)`, or
update content containing the separator (exact or split-token match) — return
an error result that identifies the problem, and perform no upstream write
(`workspace.import_` is never invoked, second component `none`); conversely
a write happens only when every update in the batch passed both checks. -/
theorem update_notebook_cell_validation (content : List Char) (args : UpdateArgs) :
    (args.cell_index.isSome = true → args.updates.isSome = true →
      update_notebook_cell content args =
        (UpdateResult.error UpdateError.bothModes, none)) ∧
    (args.cell_index = none → args.updates = none →
      update_notebook_cell content args =
        (UpdateResult.error UpdateError.neitherMode, none)) ∧
    (args.cell_index.isSome = true → args.updates = none → args.new_content = none →
      update_notebook_cell content args =
        (UpdateResult.error UpdateError.missingNewContent, none)) ∧
    (ModesOK args →
      (∃ u ∈ updatesToApply args,
        BadUpdate (_parse_notebook_cells content).length u) →
      ∃ e, update_notebook_cell content args = (UpdateResult.error e, none) ∧
        ErrorDescribes e (_parse_notebook_cells content).length
          (updatesToApply args)) ∧
    (∀ r w, update_notebook_cell content args = (r, some w) →
      ∀ u ∈ updatesToApply args,
        ¬ BadUpdate (_parse_notebook_cells content).length u) := by
  refine ⟨?_, ?_, ?_, ?_, ?_⟩
  · intro h1 h2
    simp [update_notebook_cell, h1, h2]
  · intro h1 h2
    simp [update_notebook_cell, h1, h2]
  · intro h1 h2 h3
    simp [update_notebook_cell, h1, h2, h3]
  · intro hmodes hex
    have hbr := update_notebook_cell_validBranch content args ?_ ?_ ?_
    · obtain ⟨e, he, hdesc⟩ := validateUpdates_some_of_bad
        (_parse_notebook_cells content).length (updatesToApply args) hex
      rw [hbr, he]
      exact ⟨e, rfl, hdesc⟩
    · rcases hmodes with ⟨_, h2, _⟩ | ⟨h1, _⟩
      · simp [h2]
      · simp [h1]
    · rcases hmodes with ⟨h1, _, _⟩ | ⟨_, h2⟩
      · simp [h1]
      · simp [h2]
    · rcases hmodes with ⟨_, _, h3⟩ | ⟨h1, _⟩
      · simp [Option.isNone_iff_eq_none]
        intro _
        exact Option.isSome_iff_exists.mp h3 |>.elim fun c hc => by simp [hc]
      · simp [h1]
  · intro r w hrw
    by_cases hc1 : (args.cell_index.isSome && args.updates.isSome) = true
    · unfold update_notebook_cell at hrw
      rw [if_pos hc1] at hrw
      cases hrw
    · by_cases hc2 : (!args.cell_index.isSome && !args.updates.isSome) = true
      · unfold update_notebook_cell at hrw
        rw [if_neg hc1, if_pos hc2] at hrw
        cases hrw
      · by_cases hc3 : (args.cell_index.isSome && args.new_content.isNone) = true
        · unfold update_notebook_cell at hrw
          rw [if_neg hc1, if_neg hc2, if_pos hc3] at hrw
          cases hrw
        · have hbr := update_notebook_cell_validBranch content args
            (Bool.eq_false_iff.mpr hc1) (Bool.eq_false_iff.mpr hc2)
            (Bool.eq_false_iff.mpr hc3)
          rw [hbr] at hrw
          rcases hval : validateUpdates (_parse_notebook_cells content).length
              (updatesToApply args) with _ | e
          · exact (validateUpdates_eq_none_iff _ _).mp hval
          · rw [hval] at hrw
            cases hrw

/-- Witness for `update_notebook_cell_validation`: supplying both a single
index and a batch list is rejected with no write. -/
theorem update_notebook_cell_validation_witness :
    update_notebook_cell (("a").toList)
      { cell_index := some 0, new_content := some (("x").toList),
        updates := some [] } =
      (UpdateResult.error UpdateError.bothModes, none) :=
  (update_notebook_cell_validation (("a").toList)
    { cell_index := some 0, new_content := some (("x").toList),
      updates := some [] }).1 rfl rfl

/-- **C8 (counterexample)**: a batch in which two updates carry the same
index 0, against the two-cell notebook `"a\n# COMMAND ----------\nb"`, is not
rejected: the call succeeds and writes upstream, applying the later update
(last-write-wins). -/
theorem duplicate_indices_accepted :
    update_notebook_cell (("a\n# COMMAND ----------\nb").toList)
      { cell_index := none, new_content := none,
        updates := some [⟨0, ("x").toList⟩, ⟨0, ("y").toList⟩] } =
      (UpdateResult.success [0, 0] 2,
        some (("y\n\n# COMMAND ----------\n\nb").toList)) := by
  decide

/-- **C8 (amended)**: duplicate indices in one batch are not treated as a
validation error; both updates pass validation and are applied sequentially,
so the update listed last wins and the reconstructed notebook is written
upstream. -/
theorem duplicate_indices_last_write_wins (content : List Char) (i : Int)
    (c1 c2 : List Char) (hi : 0 ≤ i)
    (hlt : i < ((_parse_notebook_cells content).length : Int))
    (h1 : ¬ containsSeparator c1) (h2 : ¬ containsSeparator c2) :
    update_notebook_cell content
      { cell_index := none, new_content := none,
        updates := some [⟨i, c1⟩, ⟨i, c2⟩] } =
      (UpdateResult.success [i, i] (_parse_notebook_cells content).length,
        some (_reconstruct_notebook
          ((_parse_notebook_cells content).set i.toNat c2))) := by
  have hargs : updatesToApply
      { cell_index := none, new_content := none,
        updates := some [⟨i, c1⟩, ⟨i, c2⟩] } = [⟨i, c1⟩, ⟨i, c2⟩] := by
    simp [updatesToApply]
  have hbr := update_notebook_cell_validBranch content
    { cell_index := none, new_content := none,
      updates := some [⟨i, c1⟩, ⟨i, c2⟩] } (by simp) (by simp) (by simp)
  rw [hargs] at hbr
  have hnb : ¬ (i < 0 ∨ ((_parse_notebook_cells content).length : Int) ≤ i) := by
    push_neg
    exact ⟨hi, hlt⟩
  have hv1 : ¬ _validate_cell_content c1 = false := by
    simp [_validate_cell_content, h1]
  have hv2 : ¬ _validate_cell_content c2 = false := by
    simp [_validate_cell_content, h2]
  have hval : validateUpdates (_parse_notebook_cells content).length
      [⟨i, c1⟩, ⟨i, c2⟩] = none := by
    simp only [validateUpdates, if_neg hnb, if_neg hv1, if_neg hv2]
  rw [hbr, hval]
  have happly : applyUpdates (_parse_notebook_cells content) [⟨i, c1⟩, ⟨i, c2⟩]
      = (_parse_notebook_cells content).set i.toNat c2 := by
    simp [applyUpdates, List.set_set]
  rw [happly]
  simp

/-- Witness for `duplicate_indices_last_write_wins` on the two-cell notebook
`"a\n# COMMAND ----------\nb"`, updating index 0 twice. -/
theorem duplicate_indices_last_write_wins_witness :
    update_notebook_cell (("a\n# COMMAND ----------\nb").toList)
      { cell_index := none, new_content := none,
        updates := some [⟨0, ("x").toList⟩, ⟨0, ("y").toList⟩] } =
      (UpdateResult.success [0, 0]
        (_parse_notebook_cells (("a\n# COMMAND ----------\nb").toList)).length,
        some (_reconstruct_notebook
          ((_parse_notebook_cells (("a\n# COMMAND ----------\nb").toList)).set
            (Int.toNat 0) ("y").toList))) :=
  duplicate_indices_last_write_wins (("a\n# COMMAND ----------\nb").toList) 0
    (("x").toList) (("y").toList) (by decide) (by decide) (by decide) (by decide)

/-- **C10**: calling `update_notebook_cell` with `cell_index = i` and
`new_content = c` is the same function of the upstream notebook as calling it
with `updates = [{"index": i, "content": c}]`: identical validation outcome,
identical upstream write, identical result object. -/
theorem update_single_eq_batch (content : List Char) (i : Int) (c : List Char) :
    update_notebook_cell content
      { cell_index := some i, new_content := some c, updates := none } =
    update_notebook_cell content
      { cell_index := none, new_content := none,
        updates := some [{ index := i, content := c }] } := by
  simp [update_notebook_cell, updatesToApply]

/-! ### `list_notebooks` (main.py lines 899-934) and
`read_notebook` (main.py lines 808-868) -/

/-- The projected record built for each workspace item
(main.py lines 909-914). -/
structure WorkspaceItemInfo where
  path : List Char
  type : List Char
  language : Option (List Char)
deriving DecidableEq

/-- Result of `databricks_list_notebooks`; `has_more` and `next_offset` are
added to the dict only when more items remain (`false`/`none` = key absent). -/
structure ListNotebooksResult where
  items : List WorkspaceItemInfo
  total_count : Nat
  returned_count : Nat
  offset : Nat
  has_more : Bool
  next_offset : Option Nat
deriving DecidableEq

/-- `list_notebooks` (main.py lines 899-934) as a function of the collected
upstream listing `all_items` (the projected records of `workspace.list`) and
the `limit`/`offset` arguments.  Python slicing
`all_items[offset:offset + limit]` for the tool's non-negative offsets
("skip this many items") is `drop offset` then `take limit`. -/
def list_notebooks (all_items : List WorkspaceItemInfo) (limit offset : Nat) :
    ListNotebooksResult :=
  let paginated_items := (all_items.drop offset).take limit
  { items := paginated_items
    total_count := all_items.length
    returned_count := paginated_items.length
    offset := offset
    has_more := decide (offset + paginated_items.length < all_items.length)
    next_offset := if offset + paginated_items.length < all_items.length then
        some (offset + paginated_items.length) else none }

/-- Per-cell display applied by `read_notebook` (main.py lines 837-848):
a cell longer than `MAX_CELL_CONTENT` is replaced by its truncated form. -/
def cellDisplay (cell : List Char) : List Char :=
  if MAX_CELL_CONTENT < cell.length then
    (truncate_text cell MAX_CELL_CONTENT (("cell").toList)).1
  else cell

/-- One entry of `result["truncated_cells"]` (main.py lines 842-846), keyed
by the absolute cell index. -/
structure TruncInfo where
  index : Nat
  total_size : Nat
  shown_size : Nat
deriving DecidableEq

/-- Result of `databricks_read_notebook`; `has_more`/`next_offset` appear
only when further cells remain (main.py lines 864-866). -/
structure ReadNotebookResult where
  total_cells : Nat
  cells_returned : Nat
  cell_offset : Nat
  cells : List (List Char)
  truncated_cells : List TruncInfo
  has_more : Bool
  next_offset : Option Nat
deriving DecidableEq

/-- `read_notebook` (main.py lines 808-868) as a function of the decoded
upstream notebook source and the pagination arguments; `cell_limit = none`
means "all cells from the offset". -/
def read_notebook (content : List Char) (cell_offset : Nat)
    (cell_limit : Option Nat) : ReadNotebookResult :=
  let all_cells := _parse_notebook_cells content
  let cells_to_return := match cell_limit with
    | some l => (all_cells.drop cell_offset).take l
    | none => all_cells.drop cell_offset
  { total_cells := all_cells.length
    cells_returned := (cells_to_return.map cellDisplay).length
    cell_offset := cell_offset
    cells := cells_to_return.map cellDisplay
    truncated_cells := cells_to_return.enum.filterMap fun p =>
      if MAX_CELL_CONTENT < p.2.length then
        some ⟨cell_offset + p.1, p.2.length, MAX_CELL_CONTENT⟩
      else none
    has_more := decide (cell_offset + cells_to_return.length < all_cells.length)
    next_offset := if cell_offset + cells_to_return.length < all_cells.length then
        some (cell_offset + cells_to_return.length) else none }

/-- Successive `list_notebooks` calls, each passing the previous result's
`next_offset` as its offset, stopping when `next_offset` is absent;
`fuel` bounds the number of calls. -/
def chainListNotebooks (all_items : List WorkspaceItemInfo) (limit : Nat) :
    Nat → Nat → List WorkspaceItemInfo
  | _, 0 => []
  | offset, fuel + 1 =>
    match (list_notebooks all_items limit offset).next_offset with
    | none => (list_notebooks all_items limit offset).items
    | some o2 => (list_notebooks all_items limit offset).items ++
        chainListNotebooks all_items limit o2 fuel

/-- Successive `read_notebook` calls with a fixed `cell_limit`, each passing
the previous result's `next_offset`. -/
def chainReadNotebook (content : List Char) (cell_limit : Nat) :
    Nat → Nat → List (List Char)
  | _, 0 => []
  | offset, fuel + 1 =>
    match (read_notebook content offset (some cell_limit)).next_offset with
    | none => (read_notebook content offset (some cell_limit)).cells
    | some o2 => (read_notebook content offset (some cell_limit)).cells ++
        chainReadNotebook content cell_limit o2 fuel

theorem chainListNotebooks_eq_drop (all : List WorkspaceItemInfo) (limit : Nat)
    (hl : 0 < limit) :
    ∀ fuel offset, all.length - offset < fuel →
      chainListNotebooks all limit offset fuel = all.drop offset := by
  intro fuel
  induction fuel with
  | zero => intro offset h; omega
  | succ f ih =>
    intro offset h
    have hlen : ((all.drop offset).take limit).length =
        min limit (all.length - offset) := by
      rw [List.length_take, List.length_drop]
    by_cases hmore : offset + ((all.drop offset).take limit).length < all.length
    · have hlim : ((all.drop offset).take limit).length = limit := by
        rw [hlen]
        rw [hlen] at hmore
        omega
      have hnext : (list_notebooks all limit offset).next_offset =
          some (offset + limit) := by
        simp only [list_notebooks]
        rw [if_pos hmore, hlim]
      simp only [chainListNotebooks, hnext]
      have hitems : (list_notebooks all limit offset).items =
          (all.drop offset).take limit := rfl
      rw [hitems, ih (offset + limit) (by rw [hlim] at hmore; omega)]
      rw [← List.drop_drop, List.take_append_drop]
    · have hnext : (list_notebooks all limit offset).next_offset = none := by
        simp only [list_notebooks]
        rw [if_neg hmore]
      simp only [chainListNotebooks, hnext]
      have hitems : (list_notebooks all limit offset).items =
          (all.drop offset).take limit := rfl
      rw [hitems]
      have hle : (all.drop offset).length ≤ limit := by
        rw [hlen] at hmore
        rw [List.length_drop]
        omega
      exact List.take_of_length_le hle

theorem chainReadNotebook_eq_drop (content : List Char) (l : Nat) (hl : 0 < l) :
    ∀ fuel offset, (_parse_notebook_cells content).length - offset < fuel →
      chainReadNotebook content l offset fuel =
        ((_parse_notebook_cells content).drop offset).map cellDisplay := by
  intro fuel
  induction fuel with
  | zero => intro offset h; omega
  | succ f ih =>
    intro offset h
    have hlen : (((_parse_notebook_cells content).drop offset).take l).length =
        min l ((_parse_notebook_cells content).length - offset) := by
      rw [List.length_take, List.length_drop]
    by_cases hmore : offset + (((_parse_notebook_cells content).drop offset).take l).length <
        (_parse_notebook_cells content).length
    · have hlim : (((_parse_notebook_cells content).drop offset).take l).length = l := by
        rw [hlen]
        rw [hlen] at hmore
        omega
      have hnext : (read_notebook content offset (some l)).next_offset =
          some (offset + l) := by
        simp only [read_notebook]
        rw [if_pos hmore, hlim]
      simp only [chainReadNotebook, hnext]
      have hcells : (read_notebook content offset (some l)).cells =
          (((_parse_notebook_cells content).drop offset).take l).map cellDisplay := rfl
      rw [hcells, ih (offset + l) (by rw [hlim] at hmore; omega)]
      rw [← List.map_append, ← List.drop_drop, List.take_append_drop]
    · have hnext : (read_notebook content offset (some l)).next_offset = none := by
        simp only [read_notebook]
        rw [if_neg hmore]
      simp only [chainReadNotebook, hnext]
      have hcells : (read_notebook content offset (some l)).cells =
          (((_parse_notebook_cells content).drop offset).take l).map cellDisplay := rfl
      rw [hcells]
      have hle : ((_parse_notebook_cells content).drop offset).length ≤ l := by
        rw [hlen] at hmore
        rw [List.length_drop]
        omega
      rw [List.take_of_length_le hle]

/-- **C4 (amended)**: both windowed list results satisfy the PageWindow
invariant — `has_more` iff `offset + returned < total`, and `next_offset`
present iff `has_more`, in which case it equals `offset + returned` — and
concatenating the items of successive calls obtained by following
`next_offset` from offset `0` (with a positive limit) reproduces the full
underlying sequence in order, each element exactly once, where for
`read_notebook` each cell is reproduced in its display form: cells longer
than `MAX_CELL_CONTENT` come back truncated (`cellDisplay`), and the
sequence is reproduced verbatim exactly when every cell is within that
per-cell budget. -/
theorem page_window_invariant (all : List WorkspaceItemInfo) (content : List Char)
    (limit offset : Nat) (cell_limit : Option Nat) :
    ((list_notebooks all limit offset).has_more = true ↔
      offset + (list_notebooks all limit offset).items.length < all.length) ∧
    (∀ x, (list_notebooks all limit offset).next_offset = some x ↔
      ((list_notebooks all limit offset).has_more = true ∧
        x = offset + (list_notebooks all limit offset).items.length)) ∧
    (0 < limit → chainListNotebooks all limit 0 (all.length + 1) = all) ∧
    ((read_notebook content offset cell_limit).has_more = true ↔
      offset + (read_notebook content offset cell_limit).cells.length <
        (_parse_notebook_cells content).length) ∧
    (∀ x, (read_notebook content offset cell_limit).next_offset = some x ↔
      ((read_notebook content offset cell_limit).has_more = true ∧
        x = offset + (read_notebook content offset cell_limit).cells.length)) ∧
    (∀ l, 0 < l →
      chainReadNotebook content l 0 ((_parse_notebook_cells content).length + 1) =
        (_parse_notebook_cells content).map cellDisplay) ∧
    ((∀ c ∈ _parse_notebook_cells content, c.length ≤ MAX_CELL_CONTENT) →
      ∀ l, 0 < l →
        chainReadNotebook content l 0 ((_parse_notebook_cells content).length + 1) =
          _parse_notebook_cells content) := by
  refine ⟨?_, ?_, ?_, ?_, ?_, ?_, ?_⟩
  · simp [list_notebooks]
  · intro x
    have hlen : ((all.drop offset).take limit).length =
        min limit (all.length - offset) := by
      rw [List.length_take, List.length_drop]
    simp only [list_notebooks, hlen]
    by_cases hmore : offset + min limit (all.length - offset) < all.length
    · rw [if_pos hmore]
      simp [hmore, eq_comm]
    · rw [if_neg hmore]
      simp [hmore]
  · intro hl
    rw [chainListNotebooks_eq_drop all limit hl (all.length + 1) 0 (by omega)]
    simp
  · cases cell_limit with
    | none => simp [read_notebook]
    | some l => simp [read_notebook]
  · intro x
    cases cell_limit with
    | none =>
      have hlen : ((_parse_notebook_cells content).drop offset).length =
          (_parse_notebook_cells content).length - offset := by
        rw [List.length_drop]
      simp only [read_notebook, hlen]
      by_cases hmore : offset + ((_parse_notebook_cells content).length - offset) <
          (_parse_notebook_cells content).length
      · rw [if_pos hmore]
        simp [hmore, eq_comm]
      · rw [if_neg hmore]
        simp [hmore]
    | some l =>
      have hlen : (((_parse_notebook_cells content).drop offset).take l).length =
          min l ((_parse_notebook_cells content).length - offset) := by
        rw [List.length_take, List.length_drop]
      simp only [read_notebook, hlen]
      by_cases hmore : offset + min l ((_parse_notebook_cells content).length - offset) <
          (_parse_notebook_cells content).length
      · rw [if_pos hmore]
        simp [hmore, eq_comm]
      · rw [if_neg hmore]
        simp [hmore]
  · intro l hl
    rw [chainReadNotebook_eq_drop content l hl ((_parse_notebook_cells content).length + 1)
      0 (by omega)]
    simp
  · intro hsmall l hl
    rw [chainReadNotebook_eq_drop content l hl ((_parse_notebook_cells content).length + 1)
      0 (by omega)]
    simp only [List.drop_zero]
    have : ∀ c ∈ _parse_notebook_cells content, cellDisplay c = id c := by
      intro c hc
      have := hsmall c hc
      simp only [cellDisplay, id]
      rw [if_neg (by omega)]
    rw [List.map_congr_left this, List.map_id]

/-- Witness for `page_window_invariant`: chaining `list_notebooks` with
limit 1 over a two-item listing returns both items. -/
theorem page_window_invariant_witness :
    chainListNotebooks
      [⟨("a").toList, ("NOTEBOOK").toList, none⟩,
       ⟨("b").toList, ("NOTEBOOK").toList, none⟩] 1 0
      ([⟨("a").toList, ("NOTEBOOK").toList, none⟩,
        ⟨("b").toList, ("NOTEBOOK").toList, none⟩] :
          List WorkspaceItemInfo).length.succ =
      [⟨("a").toList, ("NOTEBOOK").toList, none⟩,
       ⟨("b").toList, ("NOTEBOOK").toList, none⟩] :=
  (page_window_invariant
    [⟨("a").toList, ("NOTEBOOK").toList, none⟩,
     ⟨("b").toList, ("NOTEBOOK").toList, none⟩] [] 1 0 none).2.2.1 (by decide)

/-- **C4 (counterexample)**: for a notebook whose single cell has 50001
characters, the complete chain of `read_notebook` windows (one call, and its
`next_offset` is absent) returns the truncated display form, not the
underlying cell: the concatenation does not reproduce the underlying cell
sequence. -/
theorem page_window_counterexample :
    chainReadNotebook (List.replicate 50001 'a') 1 0 2 ≠
      _parse_notebook_cells (List.replicate 50001 'a') := by
  have hsf : SepFree (List.replicate 50001 'a') := by
    intro hinf
    have hmem : '#' ∈ List.replicate 50001 'a' :=
      hinf.sublist.subset (by decide)
    exact absurd (List.eq_of_mem_replicate hmem) (by decide)
  have hp : _parse_notebook_cells (List.replicate 50001 'a') =
      [List.replicate 50001 'a'] := parse_sepfree _ hsf
  have hchain : chainReadNotebook (List.replicate 50001 'a') 1 0 2 =
      ((_parse_notebook_cells (List.replicate 50001 'a')).drop 0).map cellDisplay :=
    chainReadNotebook_eq_drop (List.replicate 50001 'a') 1 (by decide) 2 0
      (by rw [hp]; decide)
  rw [hchain, hp]
  simp only [List.drop_zero, List.map_cons, List.map_nil]
  have hlen : (List.replicate 50001 'a').length = 50001 := by
    rw [List.length_replicate]
  have hgt : MAX_CELL_CONTENT < (List.replicate 50001 'a').length := by
    rw [hlen]
    decide
  have hne : ¬ (List.replicate 50001 'a' = ([] : List Char) ∨
      (List.replicate 50001 'a').length ≤ MAX_CELL_CONTENT) := by
    push_neg
    constructor
    · intro h0
      have := congrArg List.length h0
      rw [hlen] at this
      simp at this
    · omega
  have hform : cellDisplay (List.replicate 50001 'a') =
      (List.replicate 50001 'a').take MAX_CELL_CONTENT ++
        truncSuffix MAX_CELL_CONTENT (List.replicate 50001 'a').length := by
    simp only [cellDisplay, if_pos hgt, truncate_text, if_neg hne]
  have hlen2 : (cellDisplay (List.replicate 50001 'a')).length =
      MAX_CELL_CONTENT + (truncSuffix MAX_CELL_CONTENT 50001).length := by
    rw [hform, List.length_append, List.length_take, hlen]
    simp [MAX_CELL_CONTENT]
  have hsuff : (truncSuffix MAX_CELL_CONTENT 50001).length = 49 := by decide
  have hlen3 : (cellDisplay (List.replicate 50001 'a')).length = 50049 := by
    rw [hlen2, hsuff]
    decide
  simp only [ne_eq, List.cons.injEq, and_true]
  intro hcd
  have hlc := congrArg List.length hcd
  rw [hlen3, hlen] at hlc
  exact absurd hlc (by decide)

/-! ### `wait_for_run` (main.py lines 774-805) -/

/-- The `RunLifeCycleState` values of the Databricks SDK. -/
inductive RunLifeCycleState where
  | BLOCKED
  | PENDING
  | QUEUED
  | RUNNING
  | SKIPPED
  | TERMINATED
  | TERMINATING
  | INTERNAL_ERROR
  | WAITING_FOR_RETRY
deriving DecidableEq

/-- `terminal_states` (main.py lines 783-787). -/
def terminal_states : List RunLifeCycleState :=
  [RunLifeCycleState.TERMINATED, RunLifeCycleState.SKIPPED,
    RunLifeCycleState.INTERNAL_ERROR]

/-- Outcome of `wait_for_run`: on a terminal life-cycle state the function
returns the assembled `get_run_output` result for the run (where success and
upstream-reported failure are distinguished by the run's `result_state`);
exhausting the attempt budget returns the normal
`{"status": "TIMEOUT", ...}` dict — a returned value, not a raised error,
and a constructor distinct from every completed outcome. -/
inductive WaitResult where
  | completed (final : RunLifeCycleState)
  | timeout
deriving DecidableEq

/-- The polling loop of `wait_for_run` (main.py lines 789-799): `poll n` is
the life-cycle state reported by the `n`-th `jobs.get_run` call.  Returns
the outcome together with the number of polls performed. -/
def waitLoop (poll : Nat → RunLifeCycleState) : Nat → Nat → WaitResult × Nat
  | _, 0 => (WaitResult.timeout, 0)
  | start, remaining + 1 =>
    if poll start ∈ terminal_states then (WaitResult.completed (poll start), 1)
    else
      ((waitLoop poll (start + 1) remaining).1,
        (waitLoop poll (start + 1) remaining).2 + 1)

/-- `wait_for_run` (main.py lines 774-805):
`max_iterations = (timeout_minutes * 60) // poll_interval` (Python `//` on
non-negative ints is `Nat` division), one status poll per iteration. -/
def wait_for_run (poll : Nat → RunLifeCycleState)
    (timeout_minutes poll_interval_seconds : Nat) : WaitResult × Nat :=
  waitLoop poll 0 (timeout_minutes * 60 / poll_interval_seconds)

theorem waitLoop_timeout (poll : Nat → RunLifeCycleState)
    (hnt : ∀ n, poll n ∉ terminal_states) :
    ∀ remaining start, waitLoop poll start remaining = (WaitResult.timeout, remaining) := by
  intro remaining
  induction remaining with
  | zero => intro start; rfl
  | succ r ih =>
    intro start
    simp only [waitLoop, if_neg (hnt start), ih (start + 1)]

/-- **C5**: if the upstream run never reports a terminal life-cycle state,
`wait_for_run` polls exactly `(timeout_minutes * 60) / poll_interval` times
and returns the TIMEOUT outcome — 6 polls for `timeout_minutes = 1`,
`poll_interval_seconds = 10` — and that outcome is a normal return value
distinct from every completed (success or upstream-failure) outcome. -/
theorem wait_for_run_timeout (poll : Nat → RunLifeCycleState)
    (timeout_minutes poll_interval_seconds : Nat)
    (hnt : ∀ n, poll n ∉ terminal_states) :
    wait_for_run poll timeout_minutes poll_interval_seconds =
      (WaitResult.timeout, timeout_minutes * 60 / poll_interval_seconds) ∧
    (wait_for_run poll 1 10).2 = 6 ∧
    (∀ s, WaitResult.timeout ≠ WaitResult.completed s) := by
  refine ⟨?_, ?_, ?_⟩
  · exact waitLoop_timeout poll hnt _ 0
  · rw [wait_for_run, waitLoop_timeout poll hnt]
  · intro s h
    cases h

/-- Witness for `wait_for_run_timeout`: a run that stays `RUNNING` forever
times out after exactly 6 polls for a 1-minute timeout at 10-second
intervals. -/
theorem wait_for_run_timeout_witness :
    wait_for_run (fun _ => RunLifeCycleState.RUNNING) 1 10 = (WaitResult.timeout, 6) := by
  have h : ∀ n : Nat,
      ((fun (_ : Nat) => RunLifeCycleState.RUNNING) n) ∉ terminal_states := by
    intro n
    simp [terminal_states]
  exact (wait_for_run_timeout (fun _ => RunLifeCycleState.RUNNING) 1 10 h).1

/-! ### `list_clusters` (main.py lines 1247-1285) -/

/-- The upstream cluster record, restricted to the fields `list_clusters`
reads (`state` is `None` when the SDK reports no state; the remaining
projected fields are carried opaquely by the entry below). -/
structure Cluster where
  cluster_id : List Char
  cluster_name : List Char
  state : Option (List Char)
deriving DecidableEq

/-- The per-cluster dict appended to the result (main.py lines 1266-1274). -/
structure ClusterEntry where
  cluster_id : List Char
  cluster_name : List Char
  state : List Char
deriving DecidableEq

/-- `cluster.state.value if cluster.state else "UNKNOWN"` (main.py 1256). -/
def clusterState (c : Cluster) : List Char := c.state.getD (("UNKNOWN").toList)

/-- The filter of main.py lines 1259-1262: skip when `filter_by` is
`"running"`/`"terminated"` and the state string differs. -/
def clusterMatches (filter_by : List Char) (c : Cluster) : Bool :=
  !(decide ((filter_by = ("running").toList ∧ clusterState c ≠ ("RUNNING").toList) ∨
    (filter_by = ("terminated").toList ∧ clusterState c ≠ ("TERMINATED").toList)))

/-- The accumulation loop (main.py lines 1255-1274): `total_matched` counts
every matching cluster; an entry is appended only while fewer than `limit`
entries have been collected. -/
def listClustersGo (filter_by : List Char) (limit : Nat) :
    List Cluster → List ClusterEntry → Nat → List ClusterEntry × Nat
  | [], acc, total => (acc, total)
  | c :: rest, acc, total =>
    if clusterMatches filter_by c then
      if acc.length < limit then
        listClustersGo filter_by limit rest
          (acc ++ [⟨c.cluster_id, c.cluster_name, clusterState c⟩]) (total + 1)
      else listClustersGo filter_by limit rest acc (total + 1)
    else listClustersGo filter_by limit rest acc total

/-- Result of `databricks_list_clusters`; `truncated`/`message` are added
only when `total_matched > limit`; the `message` field keeps the two numbers
the f-string interpolates (the effective limit used and `total_matched`). -/
structure ListClustersResult where
  clusters : List ClusterEntry
  returned : Nat
  total_matched : Nat
  truncated : Bool
  message : Option (Nat × Nat)
deriving DecidableEq

/-- `list_clusters` (main.py lines 1247-1285):
`limit = min(args.get("limit", 25), 100)`. -/
def list_clusters (clusters_iter : List Cluster) (filter_by : List Char)
    (limit_arg : Nat) : ListClustersResult :=
  let limit := min limit_arg 100
  let pair := listClustersGo filter_by limit clusters_iter [] 0
  { clusters := pair.1
    returned := pair.1.length
    total_matched := pair.2
    truncated := decide (limit < pair.2)
    message := if limit < pair.2 then some (limit, pair.2) else none }

theorem listClustersGo_length_le (filter_by : List Char) (limit : Nat) :
    ∀ cs acc total, acc.length ≤ limit →
      (listClustersGo filter_by limit cs acc total).1.length ≤ limit := by
  intro cs
  induction cs with
  | nil => intro acc total h; exact h
  | cons c rest ih =>
    intro acc total h
    by_cases hm : clusterMatches filter_by c = true
    · by_cases hlt : acc.length < limit
      · simp only [listClustersGo, hm, if_true, if_pos hlt]
        exact ih _ _ (by simp; omega)
      · simp only [listClustersGo, hm, if_true, if_neg hlt]
        exact ih _ _ h
    · have hm' : clusterMatches filter_by c = false := by
        cases hx : clusterMatches filter_by c with
        | false => rfl
        | true => exact absurd hx hm
      simp only [listClustersGo, hm', Bool.false_eq_true, if_false]
      exact ih _ _ h

/-- **C9 (amended)**: the caller-requested limit is clamped to
`min limit_arg 100` and at most that many clusters are returned; but the
effective limit is reported back (via the `truncated` flag and the
interpolated message) only when more clusters matched than the effective
limit — a clamped request whose matches all fit produces no report. -/
theorem list_clusters_clamp (clusters_iter : List Cluster) (filter_by : List Char)
    (limit_arg : Nat) :
    (list_clusters clusters_iter filter_by limit_arg).clusters.length ≤
      min limit_arg 100 ∧
    (min limit_arg 100 <
        (list_clusters clusters_iter filter_by limit_arg).total_matched →
      (list_clusters clusters_iter filter_by limit_arg).truncated = true ∧
      (list_clusters clusters_iter filter_by limit_arg).message =
        some (min limit_arg 100,
          (list_clusters clusters_iter filter_by limit_arg).total_matched)) ∧
    ((list_clusters clusters_iter filter_by limit_arg).total_matched ≤
        min limit_arg 100 →
      (list_clusters clusters_iter filter_by limit_arg).truncated = false ∧
      (list_clusters clusters_iter filter_by limit_arg).message = none) := by
  refine ⟨?_, ?_, ?_⟩
  · exact listClustersGo_length_le filter_by (min limit_arg 100) clusters_iter [] 0
      (by simp)
  · intro h
    constructor
    · simp only [list_clusters] at h ⊢
      simp [h]
    · simp only [list_clusters] at h ⊢
      rw [if_pos h]
  · intro h
    constructor
    · simp only [list_clusters] at h ⊢
      simp
      omega
    · simp only [list_clusters] at h ⊢
      rw [if_neg (by omega)]

/-- Witness for `list_clusters_clamp`: a request for 500 clusters against a
listing of one running cluster. -/
theorem list_clusters_clamp_witness :
    (list_clusters [⟨("c1").toList, ("n1").toList, some (("RUNNING").toList)⟩]
      (("all").toList) 500).truncated = false ∧
    (list_clusters [⟨("c1").toList, ("n1").toList, some (("RUNNING").toList)⟩]
      (("all").toList) 500).message = none :=
  (list_clusters_clamp [⟨("c1").toList, ("n1").toList, some (("RUNNING").toList)⟩]
    (("all").toList) 500).2.2 (by decide)

/-- **C9 (counterexample)**: with a requested limit of 500 (clamped to the
effective limit 100) and a single matching cluster, the result reports the
effective limit nowhere — no `truncated` flag, no message: the claim that the
effective limit is reported back whenever the request was clamped fails. -/
theorem list_clusters_no_clamp_report :
    list_clusters [⟨("c1").toList, ("n1").toList, some (("RUNNING").toList)⟩]
      (("all").toList) 500 =
      { clusters := [⟨("c1").toList, ("n1").toList, ("RUNNING").toList⟩]
        returned := 1
        total_matched := 1
        truncated := false
        message := none } := by
  decide

end Databricks

namespace Notion

/-! ### `get_page_content` (notion main.py lines 711-761)

The eager traversal (`fetch_all = True`) recursively fetches children
through the upstream `GET /blocks/{id}/children` endpoint; any HTTP error
raises (`response.raise_for_status()`) and propagates out of the whole
recursion to `call_tool` (lines 548-553), which returns the upstream status
and body as the only content — no blocks.  The paginated mode
(`fetch_all = False`) performs exactly one upstream fetch. -/

/-- A raw block as consumed by the traversal: its id, the `has_children`
flag, and an opaque stand-in for the type-dependent fields that
`format_block` extracts (their per-type shape never influences the traversal
or error propagation). -/
structure RawBlock where
  id : List Char
  has_children : Bool
  payload : List Char
deriving DecidableEq

/-- A formatted block, with the `children` key that the eager traversal adds
for blocks whose children were fetched. -/
inductive Block where
  | mk (id : List Char) (has_children : Bool) (payload : List Char)
      (children : Option (List Block))

/-- `format_block` (lines 125-208) restricted to the fields of the model:
copies id, payload and the `has_children` flag; no `children` key. -/
def format_block (b : RawBlock) : Block :=
  Block.mk b.id b.has_children b.payload none

/-- One upstream response page of `GET /blocks/{id}/children`. -/
structure Page where
  results : List RawBlock
  has_more : Bool
  next_cursor : Option (List Char)

/-- An upstream HTTP error (`httpx.HTTPStatusError`): status and body. -/
structure UpstreamError where
  status : Nat
  body : List Char
deriving DecidableEq

/-- The upstream children-fetch capability: block id, `start_cursor` param,
`page_size` param; `Except.error` models `raise_for_status` raising. -/
def Upstream : Type :=
  List Char → Option (List Char) → Nat → Except UpstreamError Page

/-- Errors of the embedded traversal: a surfaced upstream error, or
exhaustion of the recursion fuel (the Python recursion has no such bound;
fuel only truncates traversals deeper than the fuel, and every theorem below
supplies enough fuel to reach the behaviour it describes). -/
inductive TraversalError where
  | upstream (e : UpstreamError)
  | fuelExhausted
deriving DecidableEq

/-- Processing of one raw block inside the `for block in results` loop
(lines 729-734): format it, and if in eager mode it claims children, fetch
them recursively (`fetchChild`) before moving on; a failed child fetch
aborts. -/
def processRaw (fetchChild : List Char → Except TraversalError (List Block))
    (fetch_all : Bool) (b : RawBlock) : Except TraversalError Block :=
  if fetch_all && b.has_children then
    match fetchChild b.id with
    | Except.error e => Except.error e
    | Except.ok kids => Except.ok (Block.mk b.id b.has_children b.payload (some kids))
  else Except.ok (format_block b)

/-- The `for` loop over one page's results, in order; the first failure
aborts the whole traversal. -/
def processResults (fetchChild : List Char → Except TraversalError (List Block))
    (fetch_all : Bool) : List RawBlock → Except TraversalError (List Block)
  | [] => Except.ok []
  | b :: rest =>
    match processRaw fetchChild fetch_all b with
    | Except.error e => Except.error e
    | Except.ok blk =>
      match processResults fetchChild fetch_all rest with
      | Except.error e => Except.error e
      | Except.ok rest2 => Except.ok (blk :: rest2)

/-- `fetch_blocks` (lines 717-740): fetch one page of children, process its
results (recursing in eager mode), and in eager mode keep following
`next_cursor` while `has_more`. -/
def fetch_blocks (up : Upstream) (fetch_all : Bool) (page_size : Nat) :
    Nat → List Char → Option (List Char) → Except TraversalError (List Block)
  | 0, _, _ => Except.error TraversalError.fuelExhausted
  | fuel + 1, block_id, cursor =>
    match up block_id cursor page_size with
    | Except.error e => Except.error (TraversalError.upstream e)
    | Except.ok page =>
      match processResults
          (fun cid => fetch_blocks up fetch_all page_size fuel cid none)
          fetch_all page.results with
      | Except.error e => Except.error e
      | Except.ok blocks =>
        if fetch_all && page.has_more then
          match fetch_blocks up fetch_all page_size fuel block_id page.next_cursor with
          | Except.error e => Except.error e
          | Except.ok more => Except.ok (blocks ++ more)
        else Except.ok blocks

/-- The two result shapes of `get_page_content`: the eager result carries
only `blocks`; the paginated result also carries `has_more`/`next_cursor`. -/
inductive PageContentResult where
  | full (blocks : List Block)
  | page (blocks : List Block) (has_more : Bool) (next_cursor : Option (List Char))

/-- `get_page_content` (lines 711-761):
`page_size = min(args.get("page_size", 100), 100)`; eager mode runs
`fetch_blocks(page_id)`, paginated mode performs one fetch and formats the
single page. -/
def get_page_content (up : Upstream) (fetch_all : Bool) (page_id : List Char)
    (start_cursor : Option (List Char)) (page_size_arg : Nat) (fuel : Nat) :
    Except TraversalError PageContentResult :=
  let page_size := min page_size_arg 100
  if fetch_all then
    match fetch_blocks up true page_size fuel page_id none with
    | Except.error e => Except.error e
    | Except.ok blocks => Except.ok (PageContentResult.full blocks)
  else
    match up page_id start_cursor page_size with
    | Except.error e => Except.error (TraversalError.upstream e)
    | Except.ok data =>
      Except.ok (PageContentResult.page (data.results.map format_block)
        data.has_more data.next_cursor)

theorem fetch_blocks_succ_err (up : Upstream) (fa : Bool) (ps fuel : Nat)
    (block_id : List Char) (cursor : Option (List Char)) (e : UpstreamError)
    (h : up block_id cursor ps = Except.error e) :
    fetch_blocks up fa ps (fuel + 1) block_id cursor =
      Except.error (TraversalError.upstream e) := by
  simp only [fetch_blocks, h]

theorem fetch_blocks_succ_ok (up : Upstream) (fa : Bool) (ps fuel : Nat)
    (block_id : List Char) (cursor : Option (List Char)) (page : Page)
    (h : up block_id cursor ps = Except.ok page) :
    fetch_blocks up fa ps (fuel + 1) block_id cursor =
      match processResults (fun cid => fetch_blocks up fa ps fuel cid none)
          fa page.results with
      | Except.error e => Except.error e
      | Except.ok blocks =>
        if fa && page.has_more then
          match fetch_blocks up fa ps fuel block_id page.next_cursor with
          | Except.error e => Except.error e
          | Except.ok more => Except.ok (blocks ++ more)
        else Except.ok blocks := by
  simp only [fetch_blocks, h]

theorem processResults_error_of_mem
    (fc : List Char → Except TraversalError (List Block)) (fa : Bool)
    (l1 : List RawBlock) (b : RawBlock) (l2 : List RawBlock) (e : TraversalError)
    (h1 : ∀ b2 ∈ l1, ∃ blk, processRaw fc fa b2 = Except.ok blk)
    (hb : processRaw fc fa b = Except.error e) :
    processResults fc fa (l1 ++ b :: l2) = Except.error e := by
  induction l1 with
  | nil => simp only [List.nil_append, processResults, hb]
  | cons a l ih =>
    obtain ⟨blk, hblk⟩ := h1 a (by simp)
    have hrest := ih (fun x hx => h1 x (by simp [hx]))
    simp only [List.cons_append, processResults, hblk, List.append_eq, hrest]

/-- **C6**: in eager mode (`fetch_all = true`), if the upstream fetch for a
nested node fails — here, the children fetch of the first block flagged
`has_children` on a root page that itself fetched successfully — the whole
call surfaces that upstream error and returns no blocks at all (`Except.error`
carries no partial tree); with `fetch_all = false`, only the single requested
page matters: when its own fetch succeeds the call succeeds, regardless of
any failing nested fetches. -/
theorem get_page_content_failure_policy
    (up : Upstream) (page_id : List Char) (start_cursor : Option (List Char))
    (page_size_arg fuel : Nat) (page0 : Page) (l1 l2 : List RawBlock)
    (b : RawBlock) (e : UpstreamError)
    (hroot : up page_id none (min page_size_arg 100) = Except.ok page0)
    (hresults : page0.results = l1 ++ b :: l2)
    (hflat : ∀ b2 ∈ l1, b2.has_children = false)
    (hchild : b.has_children = true)
    (hfail : up b.id none (min page_size_arg 100) = Except.error e) :
    get_page_content up true page_id start_cursor page_size_arg (fuel + 2) =
      Except.error (TraversalError.upstream e) ∧
    (∀ data, up page_id start_cursor (min page_size_arg 100) = Except.ok data →
      get_page_content up false page_id start_cursor page_size_arg (fuel + 2) =
        Except.ok (PageContentResult.page (data.results.map format_block)
          data.has_more data.next_cursor)) := by
  constructor
  · have hchildfetch :
        fetch_blocks up true (min page_size_arg 100) (fuel + 1) b.id none =
          Except.error (TraversalError.upstream e) :=
      fetch_blocks_succ_err up true (min page_size_arg 100) fuel b.id none e hfail
    have hpr : processRaw
        (fun cid => fetch_blocks up true (min page_size_arg 100) (fuel + 1) cid none)
        true b = Except.error (TraversalError.upstream e) := by
      simp [processRaw, hchild, hchildfetch]
    have h1 : ∀ b2 ∈ l1, ∃ blk, processRaw
        (fun cid => fetch_blocks up true (min page_size_arg 100) (fuel + 1) cid none)
        true b2 = Except.ok blk := by
      intro b2 hb2
      exact ⟨format_block b2, by simp [processRaw, hflat b2 hb2]⟩
    have hproc := processResults_error_of_mem
      (fun cid => fetch_blocks up true (min page_size_arg 100) (fuel + 1) cid none)
      true l1 b l2 (TraversalError.upstream e) h1 hpr
    have hmain : fetch_blocks up true (min page_size_arg 100) (fuel + 1 + 1)
        page_id none = Except.error (TraversalError.upstream e) := by
      rw [fetch_blocks_succ_ok up true (min page_size_arg 100) (fuel + 1)
        page_id none page0 hroot, hresults, hproc]
    simp only [get_page_content]
    rw [if_pos trivial, show fuel + 2 = fuel + 1 + 1 from rfl, hmain]
  · intro data hdata
    simp only [get_page_content, hdata]
    rfl

/-- A concrete two-level upstream: the root page lists one block claiming
children; fetching that child's children fails with HTTP 500. -/
def demoUp : Upstream := fun id _ _ =>
  if id = ("root").toList then
    Except.ok ⟨[⟨("child").toList, true, ("p").toList⟩], false, none⟩
  else Except.error ⟨500, ("boom").toList⟩

/-- Witness for `get_page_content_failure_policy` on `demoUp`: the eager
traversal surfaces the HTTP 500 even though the root level fetched fine. -/
theorem get_page_content_failure_policy_witness :
    get_page_content demoUp true (("root").toList) none 100 2 =
      Except.error (TraversalError.upstream ⟨500, ("boom").toList⟩) :=
  (get_page_content_failure_policy demoUp (("root").toList) none 100 0
    ⟨[⟨("child").toList, true, ("p").toList⟩], false, none⟩ [] []
    ⟨("child").toList, true, ("p").toList⟩ ⟨500, ("boom").toList⟩
    rfl rfl (by simp) rfl rfl).1

end Notion
